import Mathlib

/-!
Verification of the natural-language specification of the `aoc_2023` repository
against its Rust source, via a shallow embedding in Lean 4.

Conventions used throughout:
  * Rust `u64`/`usize` values are modelled as `Nat`.  Wherever the source can
    panic (index out of bounds, `unwrap`/`expect`, `unreachable!`, subtraction
    or division that traps), the embedding returns `Option`/a dedicated
    "panicked" constructor, and `none`/`panicked` models the panic.
    Subtraction that the source guards so it cannot trap is modelled by
    truncated `Nat` subtraction.
  * Growable `Vec`s are lists, with `push` an append at the end.
  * `BTreeMap<Range, u64>` is an association list whose keys are strictly
    sorted by the source's `Ord` instance; `HashMap` is an association list
    (lookup order never matters for the modelled code paths, and per-key
    `Vec`s keep their push order).
  * Unbounded loops (`loop`/iterator `cycle`) are modelled with an explicit
    fuel parameter; running out of fuel models non-termination.
-/

/-! # `src/math.rs` -/

namespace AocMath

/-- Embedding of `math::gcd` (src/math.rs:15-32), instantiated at the
    nonnegative integers: loop until one argument is zero, reducing the
    larger argument modulo the smaller. -/
def rustGcd (a b : Nat) : Nat :=
  if a = 0 then b
  else if b = 0 then a
  else if a > b then rustGcd (a % b) b
  else rustGcd a (b % a)
  termination_by a + b
  decreasing_by
  · have hb : 0 < b := Nat.pos_of_ne_zero (by assumption)
    have : a % b < b := Nat.mod_lt _ hb
    omega
  · have ha : 0 < a := Nat.pos_of_ne_zero (by assumption)
    have : b % a < a := Nat.mod_lt _ ha
    omega

/-- Embedding of `math::lcm` (src/math.rs:34-44): `a * (b / gcd(a, b))`.
    Rust integer division by zero panics, modelled by `none`. -/
def rustLcm (a b : Nat) : Option Nat :=
  if rustGcd a b = 0 then none else some (a * (b / rustGcd a b))

end AocMath

/-! # `src/matrix.rs` -/

namespace AocMatrix

/-- Embedding of `matrix::Matrix<T>` (src/matrix.rs): a flat row-major
    vector together with the stored width and height. -/
structure Matrix (α : Type) where
  data : List α
  width : Nat
  height : Nat

/-- Embedding of `Matrix::new` (src/matrix.rs:37-44). -/
def Matrix.new (width height : Nat) (default : α) : Matrix α :=
  ⟨List.replicate (width * height) default, width, height⟩

/-- Embedding of `Matrix::get` (src/matrix.rs:54-56):
    `self.data[x + y * self.width]`; `none` models the index panic. -/
def Matrix.get (m : Matrix α) (x y : Nat) : Option α :=
  m.data.get? (x + y * m.width)

end AocMatrix

/-! # `src/bin/day05.rs` -/

namespace Day05

/-- Embedding of day 5's `Range` (src/bin/day05.rs:23-27).  The Rust fields
    `begin` / `end` are Lean keywords, so they are named `lo` / `hi` here;
    `hi` is exclusive, exactly as in the source. -/
structure Range where
  lo : Nat
  hi : Nat
deriving DecidableEq, Repr

/-- Embedding of `Range::contains_position` (src/bin/day05.rs:30-32). -/
def Range.contains_position (self : Range) (position : Nat) : Bool :=
  decide (self.lo ≤ position) && decide (position < self.hi)

/-- Embedding of `Range::contains_range` (src/bin/day05.rs:34-36). -/
def Range.contains_range (self other : Range) : Bool :=
  decide (self.lo ≤ other.lo) && decide (other.hi ≤ self.hi)

/-- The strict order of day 5's `Ord for Range` (src/bin/day05.rs:39-45):
    compare `end` first, then `begin`. -/
def rangeLt (a b : Range) : Bool :=
  decide (a.hi < b.hi) || (decide (a.hi = b.hi) && decide (a.lo < b.lo))

/-- `a <= b` in the `Ord for Range` order; `mapping.range(src_range..)`
    keeps exactly the keys `k` with `src_range <= k`. -/
def rangeLe (a b : Range) : Bool :=
  !(rangeLt b a)

/-- A day-5 mapping: `BTreeMap<Range, u64>` modelled as an association list
    whose keys are strictly sorted by `rangeLt` (the map's iteration
    order). -/
abbrev Mapping := List (Range × Nat)

/-- Embedding of `apply_mapping` (src/bin/day05.rs:103-117):
    `mapping.range(src_range..).next()` is the first key-value pair, in
    sorted order, whose key is `>= Range { begin: src, end: src }`. -/
def apply_mapping (src : Nat) (mapping : Mapping) : Nat :=
  match mapping.find? (fun kv => rangeLe ⟨src, src⟩ kv.1) with
  | some (key, dst) => if src ≥ key.lo then (src - key.lo) + dst else src
  | none => src

/-- The `for overlapping_range in &overlapping_ranges` loop of
    `apply_mapping_to_ranges` (src/bin/day05.rs:153-181), as a recursion
    over the overlapping ranges.  `some rs` is the list of ranges pushed by
    the loop (a `break` stops the recursion); `none` models the
    `unreachable!()` panic. -/
def overlapLoop (orig : Range) : Mapping → Option (List Range)
  | [] => some []
  | (k, d) :: rest =>
    if orig.hi < k.lo then
      some []
    else if k.contains_range orig then
      some [⟨orig.lo - k.lo + d, orig.hi - k.lo + d⟩]
    else if orig.contains_range k then
      (overlapLoop orig rest).map (fun tail => ⟨d, d + k.hi - k.lo⟩ :: tail)
    else if k.contains_position orig.lo then
      (overlapLoop orig rest).map
        (fun tail => ⟨d + orig.lo - k.lo, (d + orig.lo - k.lo) + k.hi - orig.lo⟩ :: tail)
    else if k.contains_position orig.hi then
      some [⟨d, d + orig.hi - k.lo⟩]
    else
      none

/-- One iteration of the outer `for original_range in ranges` loop of
    `apply_mapping_to_ranges` (src/bin/day05.rs:129-196): the ranges pushed
    to `new_ranges` for `orig`.  On a sorted map the `range(..)` query is
    the sorted suffix of keys `>= Range { begin: orig.begin, end: orig.begin }`,
    i.e. the sorted `filter` below. -/
def mapOneRange (mapping : Mapping) (orig : Range) : Option (List Range) :=
  let overlapping := mapping.filter (fun kv => rangeLe ⟨orig.lo, orig.lo⟩ kv.1)
  match overlapping with
  | [] => some [orig]
  | (k0, _) :: _ =>
    let pre : List Range := if orig.lo < k0.lo then [⟨orig.lo, k0.lo⟩] else []
    (overlapLoop orig overlapping).map (fun mid =>
      let post : List Range :=
        match overlapping.getLast? with
        | some (kl, _) => if orig.hi > kl.hi then [⟨kl.hi, orig.hi⟩] else []
        | none => []
      pre ++ mid ++ post)

/-- Embedding of `apply_mapping_to_ranges` (src/bin/day05.rs:128-197);
    `none` models the `unreachable!()` panic. -/
def apply_mapping_to_ranges (ranges : List Range) (mapping : Mapping) :
    Option (List Range) :=
  (ranges.mapM (mapOneRange mapping)).map List.flatten

end Day05

/-! # `src/bin/day08.rs` -/

namespace Day08

/-- Embedding of day 8's `Dir` (src/bin/day08.rs:21-24). -/
inductive Dir where
  | left
  | right
deriving DecidableEq, Repr

/-- Embedding of day 8's `Node` (src/bin/day08.rs:26-29). -/
structure Node where
  left : String
  right : String
deriving DecidableEq, Repr

/-- Embedding of day 8's `Puzzle` (src/bin/day08.rs:31-34); the
    `HashMap<String, Node>` is an association list (iteration order of the
    hash map is arbitrary in Rust; the modelled order is insertion order,
    and none of the modelled results depend on it beyond `keys()`
    enumeration). -/
structure Puzzle where
  directions : List Dir
  nodes : List (String × Node)
deriving DecidableEq, Repr

/-- `puzzle.nodes.get(name)`. -/
def lookupNode (nodes : List (String × Node)) (name : String) : Option Node :=
  (nodes.find? (fun kv => kv.1 == name)).map (fun kv => kv.2)

/-- Choosing the left or right destination of a node by a direction. -/
def dirApply (node : Node) : Dir → String
  | .left => node.left
  | .right => node.right

/-- `s.ends_with(c)` for a single character: the last character equals
    `c`. -/
def endsWithChar (s : String) (c : Char) : Bool :=
  s.data.getLast? == some c

/-- The direction used by step number `step` (1-based):
    `zip(1u64.., directions.iter().cycle())` pairs step `step` with
    `directions[(step - 1) % directions.len()]`. -/
def dirFor (p : Puzzle) (step : Nat) : Dir :=
  p.directions.getD ((step - 1) % p.directions.length) .left

/-- Result of running day 8's `part1` with bounded fuel. -/
inductive Res where
  | ok (steps : Nat)
  | panicked
  | fuelOut
deriving DecidableEq, Repr

/-- The body of `part1`'s `for` loop (src/bin/day08.rs:84-97), with `fuel`
    bounding the number of iterations: look up the current node
    (`unwrap` panics when it is missing, modelled by `panicked`), move in
    the current direction and return the step count once the new node is
    `"ZZZ"`.  Running out of fuel models the loop not terminating. -/
def part1Aux (p : Puzzle) : Nat → Nat → String → Res
  | 0, _, _ => .fuelOut
  | fuel + 1, step, current =>
    match lookupNode p.nodes current with
    | none => .panicked
    | some node =>
      let next := dirApply node (dirFor p step)
      if next = "ZZZ" then .ok step
      else part1Aux p fuel (step + 1) next

/-- Embedding of day 8's `part1` (src/bin/day08.rs:84-97).  When
    `directions` is empty, `zip(1u64.., directions.iter().cycle())` is an
    empty iterator, the loop body never runs and the trailing `0` is
    returned. -/
def part1Fuel (fuel : Nat) (p : Puzzle) : Res :=
  if p.directions.isEmpty then .ok 0 else part1Aux p fuel 1 "AAA"

/-- Day 8's part 1 never terminates on `p`: no amount of fuel makes the
    loop return (the walk from `"AAA"` neither reaches `"ZZZ"` nor panics,
    and `directions` is non-empty). -/
def part1Diverges (p : Puzzle) : Prop :=
  ∀ fuel, part1Fuel fuel p = .fuelOut

/-- The node reached from `"AAA"` after `k` steps of day 8's walk
    (`none` once a lookup fails). -/
def walkN (p : Puzzle) : Nat → Option String
  | 0 => some "AAA"
  | k + 1 =>
    (walkN p k).bind (fun cur =>
      (lookupNode p.nodes cur).map (fun node => dirApply node (dirFor p (k + 1))))

/-- The start nodes of `part2` (src/bin/day08.rs:100-104): the keys of
    `nodes` whose name ends in `'A'`. -/
def startNodes (p : Puzzle) : List String :=
  (p.nodes.map (fun kv => kv.1)).filter (fun k => endsWithChar k 'A')

/-- The per-start loop of `part2` (src/bin/day08.rs:106-119): the step
    count at which the walk from `start` first lands on a node ending in
    `'Z'`.  As in `part1`, empty `directions` make the loop body never run
    and return `0`; `none` models both a missing-node panic and
    non-termination within the given fuel. -/
def stepsToZAux (p : Puzzle) : Nat → Nat → String → Option Nat
  | 0, _, _ => none
  | fuel + 1, step, current =>
    match lookupNode p.nodes current with
    | none => none
    | some node =>
      let next := dirApply node (dirFor p step)
      if endsWithChar next 'Z' then some step
      else stepsToZAux p fuel (step + 1) next

/-- See `stepsToZAux`. -/
def stepsToZ (fuel : Nat) (p : Puzzle) (start : String) : Option Nat :=
  if p.directions.isEmpty then some 0 else stepsToZAux p fuel 1 start

/-- `factors.entry(factor).and_modify(|count| *count += 1).or_insert(1)`
    on the per-number factor map (association list, insertion order). -/
def entryIncr : List (Nat × Nat) → Nat → List (Nat × Nat)
  | [], factor => [(factor, 1)]
  | (k, c) :: rest, factor =>
    if k = factor then (k, c + 1) :: rest else (k, c) :: entryIncr rest factor

/-- The trial-division loop of `part2`'s fold (src/bin/day08.rs:121-134):
    `while factor <= num { if num % factor == 0 { count factor; num /= factor }
    else { factor += 1 } }`.  `fuel` bounds the number of loop iterations
    (the Rust loop always terminates; `2 * num + 2` iterations are enough,
    see `factorize`). -/
def factorizeAux : Nat → Nat → Nat → List (Nat × Nat) →
    Option (List (Nat × Nat))
  | 0, _, _, _ => none
  | fuel + 1, factor, num, acc =>
    if factor ≤ num then
      if num % factor = 0 then
        factorizeAux fuel factor (num / factor) (entryIncr acc factor)
      else
        factorizeAux fuel (factor + 1) num acc
    else
      some acc

/-- Prime factorization with multiplicities, as computed by `part2`'s
    fold. -/
def factorize (num : Nat) : Option (List (Nat × Nat)) :=
  factorizeAux (2 * num + 2) 2 num []

/-- `m.entry(factor).and_modify(|count2| if count > *count2 { *count2 = count })
    .or_insert(count)` (src/bin/day08.rs:136-144). -/
def updateMax : List (Nat × Nat) → Nat × Nat → List (Nat × Nat)
  | [], kc => [kc]
  | (k, c) :: rest, (factor, count) =>
    if k = factor then (k, if count > c then count else c) :: rest
    else (k, c) :: updateMax rest (factor, count)

/-- Merging one number's factor map into the accumulated map, keeping the
    larger multiplicity for each factor. -/
def mergeMax (m factors : List (Nat × Nat)) : List (Nat × Nat) :=
  factors.foldl updateMax m

/-- Embedding of day 8's `part2` (src/bin/day08.rs:99-146): find the step
    counts of all `'A'`-start walks, factor each one, keep the maximal
    multiplicity per factor, and combine with
    `factors.iter().map(|(k, v)| k * v).product()` - note `k * v`, the
    factor times its multiplicity. -/
def part2Fuel (fuel : Nat) (p : Puzzle) : Option Nat := do
  let steps ← (startNodes p).mapM (stepsToZ fuel p)
  let m ← steps.foldlM (fun m num => (factorize num).map (mergeMax m)) []
  pure (m.foldl (fun acc kv => acc * (kv.1 * kv.2)) 1)

/-- A parsed day-8 puzzle (input text
    `"L\n\n11A = (B1, B1)\nB1 = (B2, B2)\n...\nB7 = (11Z, 11Z)\n11Z = (11Z, 11Z)"`)
    with a single `'A'`-start whose walk needs `8 = 2^3` steps to reach a
    `'Z'` node. -/
def chainPuzzle : Puzzle :=
  ⟨[.left],
    [("11A", ⟨"B1", "B1"⟩), ("B1", ⟨"B2", "B2"⟩), ("B2", ⟨"B3", "B3"⟩),
      ("B3", ⟨"B4", "B4"⟩), ("B4", ⟨"B5", "B5"⟩), ("B5", ⟨"B6", "B6"⟩),
      ("B6", ⟨"B7", "B7"⟩), ("B7", ⟨"11Z", "11Z"⟩), ("11Z", ⟨"11Z", "11Z"⟩)]⟩

/-- A parsed day-8 puzzle (input text `"L\n\nAAA = (AAA, AAA)"`) whose
    graph never reaches `"ZZZ"` from `"AAA"`. -/
def loopPuzzle : Puzzle :=
  ⟨[.left], [("AAA", ⟨"AAA", "AAA"⟩)]⟩

end Day08

/-! # `src/bin/day14.rs` -/

namespace Day14

/-- Embedding of day 14's `Cell` (src/bin/day14.rs:21-26). -/
inductive Cell where
  | round
  | cube
  | nothing
deriving DecidableEq, Repr

/-- `Vec<Vec<Cell>>`. -/
abbrev Grid := List (List Cell)

/-- Embedding of day 14's `Puzzle` (src/bin/day14.rs:28-33). -/
structure Puzzle where
  cells : Grid
  rows : Nat
  cols : Nat
deriving DecidableEq, Repr

/-- Result of day 14's `FromStr` (a `Result<Puzzle, Oops>`):
    `error` mirrors the `Err` variant (which this parser never produces)
    and `panicked` models a panic (`unreachable!()` on an unexpected
    character, or the `cells[0]` index panic on an input with no lines). -/
inductive ParseRes where
  | ok (p : Puzzle)
  | error (msg : String)
  | panicked
deriving DecidableEq, Repr

/-- Helper for `rustLines`: split the remaining characters at `'\n'`,
    accumulating the current line in reverse.  A line terminated by `'\n'`
    has one trailing `'\r'` stripped (Rust treats `"\r\n"` as a line
    ending); the final line ending is optional, and a final unterminated
    segment is kept verbatim (dropped when empty). -/
def rustLinesAux : List Char → List Char → List (List Char)
  | [], acc => if acc.isEmpty then [] else [acc.reverse]
  | c :: rest, acc =>
    if c = '\n' then
      (match acc with
        | '\r' :: acc2 => acc2.reverse
        | _ => acc.reverse) :: rustLinesAux rest []
    else
      rustLinesAux rest (c :: acc)

/-- Rust's `str::lines`, on the character list of the input. -/
def rustLines (s : String) : List (List Char) :=
  rustLinesAux s.data []

/-- `collect` of an iterator of fallible values: stop at the first
    failure (used for the nested `collect::<Vec<_>>` of the parser). -/
def mapOption (f : α → Option β) : List α → Option (List β)
  | [] => some []
  | a :: l =>
    match f a with
    | none => none
    | some b =>
      match mapOption f l with
      | none => none
      | some bs => some (b :: bs)

/-- The `match c` of day 14's parser (src/bin/day14.rs:42-47): `none`
    models the `unreachable!()` panic on any character other than
    `'O'`, `'#'`, `'.'`. -/
def parseCell (c : Char) : Option Cell :=
  if c = 'O' then some .round
  else if c = '#' then some .cube
  else if c = '.' then some .nothing
  else none

/-- Embedding of `impl FromStr for Puzzle` of day 14
    (src/bin/day14.rs:35-57): map every character of every line through
    `parseCell` (a bad character panics), then `rows = cells.len()` and
    `cols = cells[0].len()` - the indexing panics when the input has no
    lines.  The parser never constructs the `Err` variant. -/
def parse (s : String) : ParseRes :=
  match mapOption (mapOption parseCell) (rustLines s) with
  | none => .panicked
  | some cells =>
    match cells with
    | [] => .panicked
    | c0 :: _ => .ok ⟨cells, cells.length, c0.length⟩

/-- `cells[y][x]`; `none` models the index panic. -/
def getCell (g : Grid) (y x : Nat) : Option Cell :=
  (g.get? y).bind (fun row => row.get? x)

/-- In-bounds list update (the source only writes to slots it has just
    successfully read, so an out-of-bounds write cannot be reached). -/
def setRow : List Cell → Nat → Cell → List Cell
  | [], _, _ => []
  | _ :: rest, 0, c => c :: rest
  | r :: rest, n + 1, c => r :: setRow rest n c

/-- `cells[y][x] = c`, see `setRow`. -/
def setCell : Grid → Nat → Nat → Cell → Grid
  | [], _, _, _ => []
  | row :: rest, 0, x, c => setRow row x c :: rest
  | row :: rest, y + 1, x, c => row :: setCell rest y x c

/-- The three-statement swap of the tilt functions:
    `let temp = cells[y1][x1]; cells[y1][x1] = cells[y2][x2];
    cells[y2][x2] = temp;`. -/
def swapCells (g : Grid) (y1 x1 y2 x2 : Nat) : Option Grid := do
  let temp ← getCell g y1 x1
  let cur ← getCell g y2 x2
  pure (setCell (setCell g y1 x1 cur) y2 x2 temp)

/-- Inner loop of `tilt_north` (src/bin/day14.rs:63-83): `y` ascending,
    with the `next_write` slot for the next rolled rock. -/
def northInner (x : Nat) : Nat → Nat → Nat → Grid → Option Grid
  | 0, _, _, g => some g
  | cnt + 1, y, nw, g =>
    match getCell g y x with
    | none => none
    | some .nothing => northInner x cnt (y + 1) nw g
    | some .cube => northInner x cnt (y + 1) (y + 1) g
    | some .round => do
      let g2 ← swapCells g nw x y x
      northInner x cnt (y + 1) (nw + 1) g2

/-- Outer loop of `tilt_north` over the columns. -/
def northOuter (rows : Nat) : Nat → Nat → Grid → Option Grid
  | 0, _, g => some g
  | cnt + 1, x, g => do
    let g2 ← northInner x rows 0 0 g
    northOuter rows cnt (x + 1) g2

/-- Embedding of `tilt_north` (src/bin/day14.rs:63-83). -/
def tilt_north (rows cols : Nat) (g : Grid) : Option Grid :=
  northOuter rows cols 0 g

/-- Inner loop of `tilt_west` (src/bin/day14.rs:85-105): `x` ascending. -/
def westInner (y : Nat) : Nat → Nat → Nat → Grid → Option Grid
  | 0, _, _, g => some g
  | cnt + 1, x, nw, g =>
    match getCell g y x with
    | none => none
    | some .nothing => westInner y cnt (x + 1) nw g
    | some .cube => westInner y cnt (x + 1) (x + 1) g
    | some .round => do
      let g2 ← swapCells g y nw y x
      westInner y cnt (x + 1) (nw + 1) g2

/-- Outer loop of `tilt_west` over the rows. -/
def westOuter (cols : Nat) : Nat → Nat → Grid → Option Grid
  | 0, _, g => some g
  | cnt + 1, y, g => do
    let g2 ← westInner y cols 0 0 g
    westOuter cols cnt (y + 1) g2

/-- Embedding of `tilt_west` (src/bin/day14.rs:85-105). -/
def tilt_west (rows cols : Nat) (g : Grid) : Option Grid :=
  westOuter cols rows 0 g

/-- Inner loop of `tilt_south` (src/bin/day14.rs:107-129): `y` descending
    (`y = cnt - 1`), `saturating_sub` for the `next_write` updates. -/
def southInner (x : Nat) : Nat → Nat → Grid → Option Grid
  | 0, _, g => some g
  | cnt + 1, nw, g =>
    match getCell g cnt x with
    | none => none
    | some .nothing => southInner x cnt nw g
    | some .cube => southInner x cnt (cnt - 1) g
    | some .round => do
      let g2 ← swapCells g nw x cnt x
      southInner x cnt (nw - 1) g2

/-- Outer loop of `tilt_south` over the columns; `rows - 1` for the
    initial `next_write` is a panicking `usize` subtraction when
    `rows = 0`, checked before each column's scan. -/
def southOuter (rows : Nat) : Nat → Nat → Grid → Option Grid
  | 0, _, g => some g
  | cnt + 1, x, g =>
    if rows = 0 then none
    else do
      let g2 ← southInner x rows (rows - 1) g
      southOuter rows cnt (x + 1) g2

/-- Embedding of `tilt_south` (src/bin/day14.rs:107-129); the `for y` loop
    runs `y = rows - 1, ..., 0` and `southInner`'s counter is `y + 1`. -/
def tilt_south (rows cols : Nat) (g : Grid) : Option Grid :=
  southOuter rows cols 0 g

/-- Inner loop of `tilt_east` (src/bin/day14.rs:131-153): `x` descending
    (`x = cnt - 1`), `saturating_sub` for the `next_write` updates. -/
def eastInner (y : Nat) : Nat → Nat → Grid → Option Grid
  | 0, _, g => some g
  | cnt + 1, nw, g =>
    match getCell g y cnt with
    | none => none
    | some .nothing => eastInner y cnt nw g
    | some .cube => eastInner y cnt (cnt - 1) g
    | some .round => do
      let g2 ← swapCells g y nw y cnt
      eastInner y cnt (nw - 1) g2

/-- Outer loop of `tilt_east` over the rows; `cols - 1` panics when
    `cols = 0`. -/
def eastOuter (cols : Nat) : Nat → Nat → Grid → Option Grid
  | 0, _, g => some g
  | cnt + 1, y, g =>
    if cols = 0 then none
    else do
      let g2 ← eastInner y cols (cols - 1) g
      eastOuter cols cnt (y + 1) g2

/-- Embedding of `tilt_east` (src/bin/day14.rs:131-153). -/
def tilt_east (rows cols : Nat) (g : Grid) : Option Grid :=
  eastOuter cols rows 0 g

/-- The `getCell` / `match ... == Cell::Round` / `puzzle.cols - y` part of
    `calculate` (src/bin/day14.rs:156-165) for one column `x`:
    sums `cols - y` over the round rocks of the column.  Note the source
    uses `puzzle.cols - y`, a `usize` subtraction that panics when
    `y > cols` (possible only on non-square grids). -/
def calcInner (cols x : Nat) (g : Grid) : Nat → Nat → Nat → Option Nat
  | 0, _, acc => some acc
  | cnt + 1, y, acc =>
    match getCell g y x with
    | none => none
    | some c =>
      if c = .round then
        if cols < y then none
        else calcInner cols x g cnt (y + 1) (acc + (cols - y))
      else calcInner cols x g cnt (y + 1) acc

/-- Outer loop of `calculate` over the columns. -/
def calcOuter (rows cols : Nat) (g : Grid) : Nat → Nat → Nat → Option Nat
  | 0, _, acc => some acc
  | cnt + 1, x, acc => do
    let colSum ← calcInner cols x g rows 0 0
    calcOuter rows cols g cnt (x + 1) (acc + colSum)

/-- Embedding of `calculate` (src/bin/day14.rs:156-165). -/
def calculate (rows cols : Nat) (g : Grid) : Option Nat :=
  calcOuter rows cols g cols 0 0

/-- One spin cycle: north, west, south, east. -/
def spin (rows cols : Nat) (g : Grid) : Option Grid := do
  let g1 ← tilt_north rows cols g
  let g2 ← tilt_west rows cols g1
  let g3 ← tilt_south rows cols g2
  tilt_east rows cols g3

/-- Embedding of day 14's `part1` (src/bin/day14.rs:168-174). -/
def part1 (p : Puzzle) : Option Nat :=
  (tilt_north p.rows p.cols p.cells).bind (calculate p.rows p.cols)

/-- `n` spin cycles in sequence. -/
def iterateSpin (rows cols : Nat) : Nat → Grid → Option Grid
  | 0, g => some g
  | n + 1, g => (spin rows cols g).bind (iterateSpin rows cols n)

/-- The naive reference computation of claim C1: apply
    `tilt_north`, `tilt_west`, `tilt_south`, `tilt_east` in that order
    exactly 1,000,000,000 times to a copy of the grid, then call
    `calculate`. -/
def naivePart2 (p : Puzzle) : Option Nat :=
  (iterateSpin p.rows p.cols 1000000000 p.cells).bind (calculate p.rows p.cols)

/-- The in-flight state of `part2` (src/bin/day14.rs:175-239): the grid,
    `iteration`, `scores_seen` and `scores_seen_map` (a hash map modelled
    as an association list; each key's `Vec` keeps push order). -/
structure St where
  cells : Grid
  iteration : Nat
  scores : List Nat
  smap : List (Nat × List Nat)
deriving DecidableEq, Repr

/-- `scores_seen_map.get(&score)`. -/
def mapFind (m : List (Nat × List Nat)) (k : Nat) : Option (List Nat) :=
  (m.find? (fun kv => kv.1 == k)).map (fun kv => kv.2)

/-- `entry(score).and_modify(|seen| seen.push(it)).or_insert_with(|| vec![it])`
    (also used for `previous_its.push(iteration)` / `insert` in the cycle
    finder, which have the same effect on the map). -/
def mapUpdateEntry : List (Nat × List Nat) → Nat → Nat → List (Nat × List Nat)
  | [], k, it => [(k, [it])]
  | (k0, v) :: rest, k, it =>
    if k0 = k then (k0, v ++ [it]) :: rest
    else (k0, v) :: mapUpdateEntry rest k it

/-- The first loop of `part2` (`while iteration < 1_000`,
    src/bin/day14.rs:181-193), with `cnt = 1_000 - iteration` as the
    structural counter: spin, record the score, and bump `iteration`. -/
def loop1 (rows cols : Nat) : Nat → St → Option St
  | 0, st => some st
  | cnt + 1, st => do
    let g2 ← spin rows cols st.cells
    let score ← calculate rows cols g2
    loop1 rows cols cnt
      { cells := g2, iteration := st.iteration + 1,
        scores := st.scores ++ [score],
        smap := mapUpdateEntry st.smap score st.iteration }

/-- The `(1..cycle_len).all(|i| scores_seen[iteration - i] ==
    scores_seen[iteration - cycle_len - i])` check
    (src/bin/day14.rs:201-202), iterating `i` upward with
    `fuel = cycle_len - i` as the counter.  `scores_seen[iteration - cycle_len - i]`
    is a `usize` expression that panics when `i > iteration - cycle_len`
    (in release mode it wraps and the index is then out of bounds -
    either way a panic, modelled by `none`). -/
def checkWindow (scores : List Nat) (iteration cycleLen : Nat) :
    Nat → Nat → Option Bool
  | 0, _ => some true
  | fuel + 1, i => do
    let lhs ← scores.get? (iteration - i)
    if iteration - cycleLen < i then none
    else do
      let rhs ← scores.get? (iteration - cycleLen - i)
      if lhs = rhs then checkWindow scores iteration cycleLen fuel (i + 1)
      else some false

/-- The `for previous_it in &*previous_its` candidate loop
    (src/bin/day14.rs:198-213): previous occurrences in push (ascending)
    order; `some (some L)` means a cycle of length `L` was accepted,
    `some none` that no candidate matched, `none` a panic. -/
def candLoop (scores : List Nat) (iteration : Nat) :
    List Nat → Option (Option Nat)
  | [] => some none
  | prev :: rest => do
    let cycleLen := iteration - prev
    let ok ← checkWindow scores iteration cycleLen (cycleLen - 1) 1
    if ok then pure (some cycleLen)
    else candLoop scores iteration rest

/-- `(0..cycle_len).rev().map(|i| scores_seen[iteration - i]).collect()`
    (src/bin/day14.rs:203-206). -/
def cycleScores (scores : List Nat) (iteration cycleLen : Nat) :
    Option (List Nat) :=
  mapOption (fun i => scores.get? (iteration - i)) (List.range cycleLen).reverse

/-- The `{:?}` debug format of a `Vec<usize>`. -/
def fmtVec (l : List Nat) : String :=
  "[" ++ String.intercalate ", " (l.map toString) ++ "]"

/-- The `'cycle_finder` loop of `part2` (src/bin/day14.rs:195-228), with
    `cnt = 1_000_000_000 - iteration` as the structural counter.  On
    detection it prints the cycle's scores (the returned `Option String`),
    fast-forwards `iteration` by whole cycles and breaks. -/
def cfinder (rows cols : Nat) : Nat → St → Option (St × Option String)
  | 0, st => some (st, none)
  | cnt + 1, st => do
    let g2 ← spin rows cols st.cells
    let score ← calculate rows cols g2
    let scores2 := st.scores ++ [score]
    match mapFind st.smap score with
    | some prevIts => do
      let res ← candLoop scores2 st.iteration prevIts
      match res with
      | some cycleLen => do
        let cs ← cycleScores scores2 st.iteration cycleLen
        let remaining := 1000000000 - st.iteration
        pure ({ cells := g2,
                iteration := st.iteration + (remaining / cycleLen) * cycleLen,
                scores := scores2, smap := st.smap }, some (fmtVec cs))
      | none =>
        cfinder rows cols cnt
          { cells := g2, iteration := st.iteration + 1, scores := scores2,
            smap := mapUpdateEntry st.smap score st.iteration }
    | none =>
      cfinder rows cols cnt
        { cells := g2, iteration := st.iteration + 1, scores := scores2,
          smap := mapUpdateEntry st.smap score st.iteration }

/-- The final loop of `part2` (src/bin/day14.rs:230-236), printing
    `calculate` after each spin; returns the printed lines and the final
    grid (the lines printed before a panic are kept). -/
def tloop (rows cols : Nat) : Nat → St → List String × Option Grid
  | 0, st => ([], some st.cells)
  | cnt + 1, st =>
    match spin rows cols st.cells with
    | none => ([], none)
    | some g2 =>
      match calculate rows cols g2 with
      | none => ([], none)
      | some score =>
        let rec2 := tloop rows cols cnt
          { cells := g2, iteration := st.iteration + 1, scores := st.scores,
            smap := st.smap }
        (toString score :: rec2.1, rec2.2)

/-- Embedding of day 14's `part2` (src/bin/day14.rs:175-239): the answer
    (`none` models a panic) together with the lines it prints to standard
    output (the detected cycle's scores, and one score per iteration of
    the final loop). -/
def part2 (rows cols : Nat) (g : Grid) : Option Nat × List String :=
  match loop1 rows cols 1000 ⟨g, 0, [], []⟩ with
  | none => (none, [])
  | some st1 =>
    match cfinder rows cols (1000000000 - st1.iteration) st1 with
    | none => (none, [])
    | some (st2, cycleLine) =>
      let lines1 : List String :=
        match cycleLine with
        | some l => [l]
        | none => []
      match tloop rows cols (1000000000 - st2.iteration) st2 with
      | (lines2, none) => (none, lines1 ++ lines2)
      | (lines2, some gf) =>
        match calculate rows cols gf with
        | none => (none, lines1 ++ lines2)
        | some v => (some v, lines1 ++ lines2)

/-- `part2` on a parsed puzzle. -/
def part2Puzzle (p : Puzzle) : Option Nat × List String :=
  part2 p.rows p.cols p.cells

/-- The standard-output lines of the day-14 binary on input `s`, and
    whether it ran to completion (`false` = the process panicked, or
    `main` returned early with an `Err`).  `main` prints the `part1`
    answer, then runs `part2` (which may print diagnostics), then prints
    its answer.  Modelled from the spec: the `time!` macro (whose source
    is not under src/) reports the wall-clock duration of the wrapped
    expression; consistently with the spec's "read all of stdin, print
    two lines" interface, its output is taken to go to standard error,
    so it contributes no stdout lines here. -/
def mainOut (s : String) : List String × Bool :=
  match parse s with
  | .ok p =>
    (match part1 p with
      | none => ([], false)
      | some v1 =>
        match part2Puzzle p with
        | (none, lines) => ([toString v1] ++ lines, false)
        | (some v2, lines) => ([toString v1] ++ lines ++ [toString v2], true))
  | _ => ([], false)

end Day14

namespace AocMath

theorem rustGcd_eq_gcd (a b : Nat) : rustGcd a b = Nat.gcd a b := by
  have H : ∀ n a b, a + b ≤ n → rustGcd a b = Nat.gcd a b := by
    intro n
    induction n with
    | zero =>
      intro a b h
      have ha : a = 0 := by omega
      subst ha
      simp [rustGcd]
    | succ n ih =>
      intro a b h
      rw [rustGcd]
      by_cases ha : a = 0
      · simp [ha]
      by_cases hb : b = 0
      · simp [ha, hb]
      by_cases hab : a > b
      · have hblt : a % b < b := Nat.mod_lt _ (Nat.pos_of_ne_zero hb)
        simp only [ha, hb, hab, if_false, if_true, if_neg, if_pos]
        rw [ih (a % b) b (by omega)]
        rw [← Nat.gcd_rec b a, Nat.gcd_comm b a]
      · have halt : b % a < a := Nat.mod_lt _ (Nat.pos_of_ne_zero ha)
        simp only [ha, hb, hab, if_false, if_neg, if_pos]
        rw [ih a (b % a) (by omega)]
        rw [Nat.gcd_comm a (b % a), ← Nat.gcd_rec]
  exact H (a + b) a b (Nat.le_refl _)

end AocMath

/-- C8: For every pair of nonnegative integers `a` and `b`, `gcd(a, b)`
    terminates (it is a total function of the embedding) and returns the
    greatest common divisor of `a` and `b`, with `gcd(0, b) = b` and
    `gcd(a, 0) = a`. -/
theorem c8_gcd_correct (a b : Nat) :
    AocMath.rustGcd a b = Nat.gcd a b ∧
    AocMath.rustGcd 0 b = b ∧
    AocMath.rustGcd a 0 = a := by
  refine ⟨AocMath.rustGcd_eq_gcd a b, ?_, ?_⟩
  · rw [AocMath.rustGcd_eq_gcd]
    exact Nat.gcd_zero_left b
  · rw [AocMath.rustGcd_eq_gcd]
    exact Nat.gcd_zero_right a

/-- C9 counterexample: at `a = 0`, `b = 0` the internal division of
    `math::lcm` divides by `gcd(0, 0) = 0`, which panics for Rust integers;
    `lcm(0, 0)` does not return the least common multiple `0`. -/
theorem c9_lcm_counterexample :
    AocMath.rustLcm 0 0 = none ∧ AocMath.rustGcd 0 0 = 0 := by
  have hg : AocMath.rustGcd 0 0 = 0 := by
    rw [AocMath.rustGcd]
    simp
  exact ⟨by simp [AocMath.rustLcm, hg], hg⟩

/-- C9 (amended): for every pair of nonnegative integers not both zero,
    `lcm(a, b)` returns the least common multiple of `a` and `b`, and the
    internal division `b / gcd(a, b)` does not divide by zero.  (At
    `a = b = 0` the division is by zero and the code panics.) -/
theorem c9_lcm_correct_of_ne_zero (a b : Nat) (h : a ≠ 0 ∨ b ≠ 0) :
    AocMath.rustGcd a b ≠ 0 ∧ AocMath.rustLcm a b = some (Nat.lcm a b) := by
  have hg : AocMath.rustGcd a b = Nat.gcd a b := AocMath.rustGcd_eq_gcd a b
  have hgcd : Nat.gcd a b ≠ 0 := by
    rcases h with h | h
    · exact fun hz => h (Nat.eq_zero_of_gcd_eq_zero_left hz)
    · exact fun hz => h (Nat.eq_zero_of_gcd_eq_zero_right hz)
  refine ⟨by rw [hg]; exact hgcd, ?_⟩
  rw [AocMath.rustLcm, if_neg (by rw [hg]; exact hgcd), hg]
  congr 1
  rw [Nat.lcm, Nat.mul_div_assoc a (Nat.gcd_dvd_right a b)]

/-- C9 witness: the amended theorem applied at `a = 4`, `b = 6`. -/
theorem c9_lcm_correct_of_ne_zero_witness :
    AocMath.rustGcd 4 6 ≠ 0 ∧ AocMath.rustLcm 4 6 = some (Nat.lcm 4 6) :=
  c9_lcm_correct_of_ne_zero 4 6 (Or.inl (by decide))

/-- C10: `Matrix::get(x, y)` panics if and only if
    `x + y * width >= width * height`; for every in-range index with
    `x >= width`, it does not fail but returns the value of a different
    logical cell one row further down (`(x - width, y + 1)`), since the
    lookup is by flat row-major index. -/
theorem c10_matrix_get (α : Type) (m : AocMatrix.Matrix α)
    (hlen : m.data.length = m.width * m.height) (x y : Nat) :
    (m.get x y = none ↔ m.width * m.height ≤ x + y * m.width) ∧
    (m.width ≤ x → x + y * m.width < m.width * m.height →
      m.get x y = m.data.get? (x + y * m.width) ∧
      m.get x y = m.get (x - m.width) (y + 1)) := by
  constructor
  · rw [AocMatrix.Matrix.get, List.get?_eq_none, hlen]
  · intro hx hin
    refine ⟨rfl, ?_⟩
    rw [AocMatrix.Matrix.get, AocMatrix.Matrix.get]
    congr 1
    have : (y + 1) * m.width = y * m.width + m.width := by ring
    omega

/-- C10 witness: a 2x2 matrix, probed at `x = 2, y = 0` (out-of-row but
    in-bounds row-major index) and at `x = 4, y = 1` (out of bounds). -/
theorem c10_matrix_get_witness :
    ((AocMatrix.Matrix.new 2 2 (37 : Nat)).get 2 0 = none ↔
      2 * 2 ≤ 2 + 0 * 2) ∧
    (2 ≤ 2 → 2 + 0 * 2 < 2 * 2 →
      (AocMatrix.Matrix.new 2 2 (37 : Nat)).get 2 0 =
        (AocMatrix.Matrix.new 2 2 (37 : Nat)).data.get? (2 + 0 * 2) ∧
      (AocMatrix.Matrix.new 2 2 (37 : Nat)).get 2 0 =
        (AocMatrix.Matrix.new 2 2 (37 : Nat)).get (2 - 2) (0 + 1)) :=
  c10_matrix_get Nat (AocMatrix.Matrix.new 2 2 37) (by decide) 2 0


/-- C2 (code bug): `apply_mapping_to_ranges` does not compute the image of
    the covered integers under `apply_mapping`.  With the input range
    `[0, 6)` and the mapping `{[0, 1) -> 10, [5, 6) -> 20}` (non-empty
    input range, pairwise-disjoint source ranges), the function returns
    `[[10, 11), [20, 21)]`: the identity-mapped positions `1..4` that fall
    in the gap between the two mapping ranges are dropped, although
    `apply_mapping 1 = 1` and `1` is covered by the input range.  In
    particular the minimum of the output begins is `10`, not the true
    minimum `1` of `apply_mapping` over the covered positions. -/
theorem c2_apply_mapping_to_ranges_drops_gap :
    Day05.apply_mapping_to_ranges [⟨0, 6⟩] [(⟨0, 1⟩, 10), (⟨5, 6⟩, 20)] =
      some [⟨10, 11⟩, ⟨20, 21⟩] ∧
    Day05.apply_mapping 1 [(⟨0, 1⟩, 10), (⟨5, 6⟩, 20)] = 1 ∧
    Day05.Range.contains_position ⟨0, 6⟩ 1 = true ∧
    ([⟨10, 11⟩, ⟨20, 21⟩] : List Day05.Range).any
      (fun r => r.contains_position 1) = false := by
  decide

/-- C3 counterexample: the claim fails when the mapping contains an empty
    source range.  For the mapping `{[5, 5) -> 100}` (pairwise disjoint:
    there is a single key) no source range contains `src = 5`, yet
    `apply_mapping` returns `100`, not `5`: the `BTreeMap::range` query
    finds the empty key `[5, 5)` itself and `5 >= 5` passes the guard. -/
theorem c3_apply_mapping_empty_range_counterexample :
    Day05.apply_mapping 5 [(⟨5, 5⟩, 100)] = 100 ∧
    Day05.apply_mapping 5 [(⟨5, 5⟩, 100)] ≠ 5 ∧
    Day05.Range.contains_position ⟨5, 5⟩ 5 = false := by
  decide

/-- C3 (amended): for every day-5 mapping whose source ranges are
    pairwise disjoint *and non-empty* (keys strictly sorted by the map's
    `Ord`, as in a `BTreeMap`), `apply_mapping src mapping` returns
    `dst + (src - begin)` when the mapping contains a range
    `[begin, end)` with `begin <= src < end` mapped to `dst`, and returns
    `src` unchanged when no range of the mapping contains `src`. -/
theorem apply_mapping_cons_pos (src : Nat) (k : Day05.Range) (d : Nat)
    (tl : Day05.Mapping) (h : Day05.rangeLe ⟨src, src⟩ k = true) :
    Day05.apply_mapping src ((k, d) :: tl) =
      if src ≥ k.lo then (src - k.lo) + d else src := by
  simp only [Day05.apply_mapping]
  have hfind : List.find? (fun kv => Day05.rangeLe ⟨src, src⟩ kv.1)
      ((k, d) :: tl) = some (k, d) :=
    List.find?_cons_of_pos _ h
  rw [hfind]

theorem apply_mapping_cons_neg (src : Nat) (k : Day05.Range) (d : Nat)
    (tl : Day05.Mapping) (h : ¬Day05.rangeLe ⟨src, src⟩ k = true) :
    Day05.apply_mapping src ((k, d) :: tl) = Day05.apply_mapping src tl := by
  simp only [Day05.apply_mapping]
  have hfind : List.find? (fun kv => Day05.rangeLe ⟨src, src⟩ kv.1)
      ((k, d) :: tl) =
      List.find? (fun kv => Day05.rangeLe ⟨src, src⟩ kv.1) tl :=
    List.find?_cons_of_neg _ h
  rw [hfind]

theorem c3_apply_mapping_correct (mapping : Day05.Mapping)
    (hne : ∀ kv ∈ mapping, kv.1.lo < kv.1.hi)
    (hsort : mapping.Pairwise (fun a b => Day05.rangeLt a.1 b.1 = true))
    (hdisj : mapping.Pairwise (fun a b => a.1.hi ≤ b.1.lo ∨ b.1.hi ≤ a.1.lo))
    (src : Nat) :
    (∀ k d, (k, d) ∈ mapping → k.lo ≤ src → src < k.hi →
      Day05.apply_mapping src mapping = d + (src - k.lo)) ∧
    ((∀ kv ∈ mapping, ¬(kv.1.lo ≤ src ∧ src < kv.1.hi)) →
      Day05.apply_mapping src mapping = src) := by
  induction mapping with
  | nil =>
    refine ⟨fun k d hmem => absurd hmem (List.not_mem_nil _), fun _ => rfl⟩
  | cons hd tl ih =>
    obtain ⟨K, D⟩ := hd
    have hneK : K.lo < K.hi := hne (K, D) (List.mem_cons_self _ _)
    have hneTl : ∀ kv ∈ tl, kv.1.lo < kv.1.hi :=
      fun kv h => hne kv (List.mem_cons_of_mem _ h)
    rw [List.pairwise_cons] at hsort hdisj
    obtain ⟨hsortHd, hsortTl⟩ := hsort
    obtain ⟨hdisjHd, hdisjTl⟩ := hdisj
    have IH := ih hneTl hsortTl hdisjTl
    constructor
    · intro k d hmem hlo hhi
      rcases List.mem_cons.mp hmem with heq | hmemTl
      · injection heq with hk hd2
        subst hk
        subst hd2
        have hlt : Day05.rangeLt k ⟨src, src⟩ = false := by
          rw [Day05.rangeLt]
          simp only [Bool.or_eq_false_iff, Bool.and_eq_false_iff,
            decide_eq_false_iff_not]
          exact ⟨by omega, Or.inl (by omega)⟩
        have hp : Day05.rangeLe ⟨src, src⟩ k = true := by
          simp [Day05.rangeLe, hlt]
        rw [apply_mapping_cons_pos src k d tl hp, if_pos (by omega : src ≥ k.lo)]
        omega
      · have hKlt := hsortHd (k, d) hmemTl
        have hdj : K.hi ≤ k.lo ∨ k.hi ≤ K.lo := hdisjHd (k, d) hmemTl
        have hkne : k.lo < k.hi := hneTl (k, d) hmemTl
        simp only [Day05.rangeLt, Bool.or_eq_true, Bool.and_eq_true,
          decide_eq_true_eq] at hKlt
        have hlt : Day05.rangeLt K ⟨src, src⟩ = true := by
          rw [Day05.rangeLt]
          simp only [Bool.or_eq_true, Bool.and_eq_true, decide_eq_true_eq]
          omega
        have hnp : ¬Day05.rangeLe ⟨src, src⟩ K = true := by
          simp [Day05.rangeLe, hlt]
        rw [apply_mapping_cons_neg src K D tl hnp]
        exact IH.1 k d hmemTl hlo hhi
    · intro hnone
      by_cases hp : Day05.rangeLe ⟨src, src⟩ K = true
      · have hK := hnone (K, D) (List.mem_cons_self _ _)
        simp only [Day05.rangeLe, Bool.not_eq_true'] at hp
        simp only [Day05.rangeLt, Bool.or_eq_false_iff, Bool.and_eq_false_iff,
          decide_eq_false_iff_not] at hp
        simp only [not_and, not_lt] at hK
        rw [apply_mapping_cons_pos src K D tl (by
          simp only [Day05.rangeLe, Bool.not_eq_true']
          rw [Day05.rangeLt]
          simp only [Bool.or_eq_false_iff, Bool.and_eq_false_iff,
            decide_eq_false_iff_not]
          omega)]
        rw [if_neg (by omega)]
      · rw [apply_mapping_cons_neg src K D tl hp]
        exact IH.2 (fun kv h => hnone kv (List.mem_cons_of_mem _ h))

/-- C3 witness: the amended theorem applied to the mapping
    `{[10, 20) -> 100}`, at `src = 15` (inside the range) and `src = 25`
    (outside every range). -/
theorem c3_apply_mapping_correct_witness :
    Day05.apply_mapping 15 [(⟨10, 20⟩, 100)] = 100 + (15 - 10) ∧
    Day05.apply_mapping 25 [(⟨10, 20⟩, 100)] = 25 :=
  ⟨(c3_apply_mapping_correct [(⟨10, 20⟩, 100)] (by decide)
      (by simp) (by simp) 15).1 ⟨10, 20⟩ 100 (by simp) (by decide) (by decide),
    (c3_apply_mapping_correct [(⟨10, 20⟩, 100)] (by decide)
      (by simp) (by simp) 25).2 (by decide)⟩


/-- C4 (code bug): `part2` of day 8 does not return the least common
    multiple of the per-start step counts.  It combines the factorizations
    with `factors.iter().map(|(k, v)| k * v).product()` - multiplying each
    prime *by* its maximal multiplicity instead of raising it to that
    power.  On `chainPuzzle` the single start `"11A"` first reaches a
    `'Z'`-node after `8 = 2^3 > 0` steps, so the least common multiple of
    the step counts is `8`, but `part2` returns `2 * 3 = 6`.  (The repo's
    own `example2` test passes only because its step counts `2` and `3` are
    square-free.) -/
theorem c4_day08_part2_not_lcm :
    Day08.part2Fuel 100 Day08.chainPuzzle = some 6 ∧
    Day08.stepsToZ 100 Day08.chainPuzzle "11A" = some 8 ∧
    Day08.startNodes Day08.chainPuzzle = ["11A"] ∧
    Nat.lcm 8 8 = 8 ∧ (6 : Nat) ≠ 8 := by
  refine ⟨by decide, by decide, by decide, by decide, by decide⟩

namespace Day08

theorem part1Aux_loopPuzzle (fuel step : Nat) :
    part1Aux loopPuzzle fuel step "AAA" = .fuelOut := by
  induction fuel generalizing step with
  | zero => rfl
  | succ fuel ih =>
    rw [part1Aux]
    have hl : lookupNode loopPuzzle.nodes "AAA" = some ⟨"AAA", "AAA"⟩ := by
      decide
    rw [hl]
    have hd : dirApply ⟨"AAA", "AAA"⟩ (dirFor loopPuzzle step) = "AAA" := by
      cases h : dirFor loopPuzzle step <;> rfl
    simp only [hd]
    rw [if_neg (by decide)]
    exact ih (step + 1)

/-- `walkN` stays `none` once a lookup has failed. -/
theorem walkN_none_succ (p : Puzzle) (k : Nat) (h : walkN p k = none) :
    walkN p (k + 1) = none := by
  rw [walkN, h]
  rfl

theorem walkN_none_mono (p : Puzzle) (j m : Nat) (hjm : j ≤ m)
    (h : walkN p j = none) : walkN p m = none := by
  induction m with
  | zero =>
    have : j = 0 := Nat.le_zero.mp hjm
    subst this
    exact h
  | succ m ih =>
    rcases Nat.lt_or_ge j (m + 1) with hlt | hge
    · exact walkN_none_succ p m (ih (Nat.lt_succ_iff.mp hlt))
    · have : j = m + 1 := Nat.le_antisymm hjm hge
      subst this
      exact h

/-- If the bounded `part1` loop returns a step count, the walk reaches
    `"ZZZ"`. -/
theorem part1Aux_ok_reaches (p : Puzzle) (fuel : Nat) :
    ∀ k cur n, walkN p k = some cur →
      part1Aux p fuel (k + 1) cur = .ok n →
      ∃ m, 1 ≤ m ∧ walkN p m = some "ZZZ" := by
  induction fuel with
  | zero =>
    intro k cur n _ h
    exact absurd h (by rw [part1Aux]; exact fun h => Res.noConfusion h)
  | succ fuel ih =>
    intro k cur n hw h
    rw [part1Aux] at h
    cases hl : lookupNode p.nodes cur with
    | none => rw [hl] at h; exact absurd h (fun h => Res.noConfusion h)
    | some node =>
      rw [hl] at h
      simp only at h
      have hwnext : walkN p (k + 1) =
          some (dirApply node (dirFor p (k + 1))) := by
        rw [walkN, hw]
        simp [hl]
      by_cases hz : dirApply node (dirFor p (k + 1)) = "ZZZ"
      · exact ⟨k + 1, by omega, by rw [hwnext, hz]⟩
      · rw [if_neg hz] at h
        exact ih (k + 1) _ n hwnext h

/-- If the walk reaches `"ZZZ"`, enough fuel makes the `part1` loop
    return. -/
theorem part1Aux_reaches_ok (p : Puzzle) (d : Nat) :
    ∀ k cur, walkN p k = some cur →
      walkN p (k + d + 1) = some "ZZZ" →
      ∃ n, part1Aux p (d + 1) (k + 1) cur = .ok n := by
  induction d with
  | zero =>
    intro k cur hw hz
    rw [walkN, hw] at hz
    replace hz : (lookupNode p.nodes cur).map
        (fun node => dirApply node (dirFor p (k + 1))) = some "ZZZ" := hz
    cases hl : lookupNode p.nodes cur with
    | none => rw [hl] at hz; exact absurd hz (fun h => Option.noConfusion h)
    | some node =>
      rw [hl] at hz
      have hz' : dirApply node (dirFor p (k + 1)) = "ZZZ" :=
        Option.some.inj hz
      refine ⟨k + 1, ?_⟩
      rw [part1Aux, hl]
      simp only [hz']
      simp
  | succ d ih =>
    intro k cur hw hz
    cases hnext : walkN p (k + 1) with
    | none =>
      have : walkN p (k + (d + 1) + 1) = none :=
        walkN_none_mono p (k + 1) _ (by omega) hnext
      rw [this] at hz
      exact absurd hz (fun h => Option.noConfusion h)
    | some next =>
      have hstep : walkN p (k + 1) =
          (lookupNode p.nodes cur).map
            (fun node => dirApply node (dirFor p (k + 1))) := by
        rw [walkN, hw]
        rfl
      cases hl : lookupNode p.nodes cur with
      | none =>
        rw [hl] at hstep
        rw [hstep] at hnext
        exact absurd hnext (fun h => Option.noConfusion h)
      | some node =>
        rw [hl] at hstep
        replace hstep : walkN p (k + 1) =
            some (dirApply node (dirFor p (k + 1))) := hstep
        rw [hstep] at hnext
        have hnext' : dirApply node (dirFor p (k + 1)) = next :=
          Option.some.inj hnext
        by_cases hzz : dirApply node (dirFor p (k + 1)) = "ZZZ"
        · refine ⟨k + 1, ?_⟩
          rw [part1Aux, hl]
          simp only [hzz]
          simp
        · have hznext : walkN p ((k + 1) + d + 1) = some "ZZZ" := by
            have : (k + 1) + d + 1 = k + (d + 1) + 1 := by omega
            rw [this]
            exact hz
          have hwn : walkN p (k + 1) = some next := by rw [hstep, hnext']
          obtain ⟨n, hn⟩ := ih (k + 1) next hwn hznext
          refine ⟨n, ?_⟩
          rw [part1Aux, hl]
          simp only
          rw [if_neg hzz, hnext']
          exact hn

/-- If the bounded `part1` loop panics, the walk runs into a missing
    node, and never reaches `"ZZZ"` from the current position on. -/
theorem part1Aux_panicked_reaches (p : Puzzle) (fuel : Nat) :
    ∀ k cur, walkN p k = some cur →
      part1Aux p fuel (k + 1) cur = .panicked →
      (∃ j, walkN p j = none) ∧ ∀ m, k + 1 ≤ m → walkN p m ≠ some "ZZZ" := by
  induction fuel with
  | zero =>
    intro k cur _ h
    exact absurd h (by rw [part1Aux]; exact fun h => Res.noConfusion h)
  | succ fuel ih =>
    intro k cur hw h
    rw [part1Aux] at h
    cases hl : lookupNode p.nodes cur with
    | none =>
      have hwn : walkN p (k + 1) = none := by
        rw [walkN, hw]
        show (lookupNode p.nodes cur).map
          (fun node => dirApply node (dirFor p (k + 1))) = none
        rw [hl]
        rfl
      refine ⟨⟨k + 1, hwn⟩, ?_⟩
      intro m hm hzz
      have hmn : walkN p m = none := walkN_none_mono p (k + 1) m hm hwn
      rw [hmn] at hzz
      exact Option.noConfusion hzz
    | some node =>
      rw [hl] at h
      simp only at h
      have hwnext : walkN p (k + 1) =
          some (dirApply node (dirFor p (k + 1))) := by
        rw [walkN, hw]
        simp [hl]
      by_cases hz : dirApply node (dirFor p (k + 1)) = "ZZZ"
      · rw [if_pos hz] at h
        exact absurd h (fun h => Res.noConfusion h)
      · rw [if_neg hz] at h
        obtain ⟨hex, hno⟩ := ih (k + 1) _ hwnext h
        refine ⟨hex, ?_⟩
        intro m hm
        rcases Nat.eq_or_lt_of_le hm with heq | hlt
        · rw [← heq, hwnext]
          intro hc
          exact hz (Option.some.inj hc)
        · exact hno m hlt

/-- If the walk runs into a missing node without ever reaching `"ZZZ"`,
    enough fuel makes the `part1` loop panic. -/
theorem part1Aux_reaches_panicked (p : Puzzle) (d : Nat) :
    ∀ k cur, walkN p k = some cur →
      walkN p (k + d + 1) = none →
      (∀ m, 1 ≤ m → walkN p m ≠ some "ZZZ") →
      ∃ fuel, part1Aux p fuel (k + 1) cur = .panicked := by
  induction d with
  | zero =>
    intro k cur hw hn _
    cases hl : lookupNode p.nodes cur with
    | none =>
      refine ⟨1, ?_⟩
      rw [part1Aux, hl]
    | some node =>
      exfalso
      have hwnext : walkN p (k + 1) =
          some (dirApply node (dirFor p (k + 1))) := by
        rw [walkN, hw]
        simp [hl]
      have hn' : walkN p (k + 1) = none := by
        have he : k + 0 + 1 = k + 1 := by omega
        rw [he] at hn
        exact hn
      rw [hwnext] at hn'
      exact Option.noConfusion hn'
  | succ d ih =>
    intro k cur hw hn hno
    cases hl : lookupNode p.nodes cur with
    | none =>
      refine ⟨1, ?_⟩
      rw [part1Aux, hl]
    | some node =>
      have hwnext : walkN p (k + 1) =
          some (dirApply node (dirFor p (k + 1))) := by
        rw [walkN, hw]
        simp [hl]
      have hz : dirApply node (dirFor p (k + 1)) ≠ "ZZZ" := by
        intro hc
        exact hno (k + 1) (by omega) (by rw [hwnext, hc])
      have hn' : walkN p ((k + 1) + d + 1) = none := by
        have he : (k + 1) + d + 1 = k + (d + 1) + 1 := by omega
        rw [he]
        exact hn
      obtain ⟨fuel, hf⟩ := ih (k + 1) _ hwnext hn' hno
      refine ⟨fuel + 1, ?_⟩
      rw [part1Aux, hl]
      simp only
      rw [if_neg hz]
      exact hf

/-- The per-start loop of day 8's `part2` never returns on the self-loop
    puzzle: the walk stays on `"AAA"` (whose lookup always succeeds) and
    never lands on a node ending in `'Z'`, so every fuel bound runs out -
    the loop diverges exactly like `part1`'s. -/
theorem stepsToZAux_loopPuzzle (fuel step : Nat) :
    stepsToZAux loopPuzzle fuel step "AAA" = none := by
  induction fuel generalizing step with
  | zero => rfl
  | succ fuel ih =>
    rw [stepsToZAux]
    have hl : lookupNode loopPuzzle.nodes "AAA" = some ⟨"AAA", "AAA"⟩ := by
      decide
    rw [hl]
    have hd : dirApply ⟨"AAA", "AAA"⟩ (dirFor loopPuzzle step) = "AAA" := by
      cases h : dirFor loopPuzzle step <;> rfl
    simp only [hd]
    rw [if_neg (by decide)]
    exact ih (step + 1)

/-- Day 8's `part2` never returns on the self-loop puzzle, whatever the
    fuel bound: its single start `"AAA"` ends in `'A'` and its walk never
    reaches a `'Z'` node. -/
theorem part2Fuel_loopPuzzle (fuel : Nat) :
    part2Fuel fuel loopPuzzle = none := by
  have h1 : stepsToZ fuel loopPuzzle "AAA" = none := by
    rw [stepsToZ, if_neg (by decide)]
    exact stepsToZAux_loopPuzzle fuel 1
  have hs : startNodes loopPuzzle = ["AAA"] := by decide
  have h2 : (startNodes loopPuzzle).mapM (stepsToZ fuel loopPuzzle) = none := by
    rw [hs, List.mapM_cons, h1]
    rfl
  unfold part2Fuel
  rw [h2]
  rfl

end Day08

/-- C7 counterexample: on the parsed puzzle `"L\n\nAAA = (AAA, AAA)"`,
    whose graph never reaches `"ZZZ"`, day 8's `part1` loops forever: no
    amount of fuel makes the loop return.  The binary therefore does not
    exit on every successfully parsed input. -/
theorem c7_day08_part1_diverges_on_self_loop :
    Day08.part1Diverges Day08.loopPuzzle := by
  intro fuel
  rw [Day08.part1Fuel]
  rw [if_neg (by decide)]
  exact Day08.part1Aux_loopPuzzle fuel 1

/-- Day 8's `part1` returns a step count precisely when the direction
    list is empty (returning `0`) or the walk from `"AAA"` reaches
    `"ZZZ"`. -/
theorem day08_part1_ok_iff (p : Day08.Puzzle) :
    (∃ fuel n, Day08.part1Fuel fuel p = .ok n) ↔
    (p.directions.isEmpty = true ∨
      ∃ k, 1 ≤ k ∧ Day08.walkN p k = some "ZZZ") := by
  by_cases hemp : p.directions.isEmpty = true
  · constructor
    · intro _
      exact Or.inl hemp
    · intro _
      exact ⟨1, 0, by rw [Day08.part1Fuel, if_pos hemp]⟩
  · constructor
    · rintro ⟨fuel, n, h⟩
      rw [Day08.part1Fuel, if_neg hemp] at h
      rcases fuel with _ | fuel
      · exact absurd h (by rw [Day08.part1Aux]; exact fun h => Day08.Res.noConfusion h)
      · exact Or.inr (Day08.part1Aux_ok_reaches p (fuel + 1) 0 "AAA" n rfl h)
    · rintro (h | ⟨k, hk1, hkZ⟩)
      · exact absurd h hemp
      · obtain ⟨d, rfl⟩ : ∃ d, k = d + 1 := ⟨k - 1, by omega⟩
        obtain ⟨n, hn⟩ :=
          Day08.part1Aux_reaches_ok p d 0 "AAA" rfl (by simpa using hkZ)
        exact ⟨d + 1, n, by rw [Day08.part1Fuel, if_neg hemp]; exact hn⟩

/-- C7 (amended): day 8's `part1` does not terminate on every parsed
    input.  It returns a step count exactly when the direction list is
    empty (the loop body never runs and `0` is returned) or the cyclic
    walk from `"AAA"` reaches `"ZZZ"` after a positive number of steps;
    failing that, it panics (terminating the process) exactly when the
    walk runs into a missing node; and on every remaining parsed puzzle -
    in particular `"L\n\nAAA = (AAA, AAA)"`, whose graph never reaches
    `"ZZZ"` - it loops forever at every fuel bound, so the binary does
    not exit.  Day 8's `part2` runs the same cyclic walk per `'A'`-start,
    and on that same puzzle (`"AAA"` ends in `'A'`, never reaches a
    `'Z'` node, and every lookup succeeds) it likewise never returns,
    whatever the fuel bound. -/
theorem c7_day08_part1_behaviour (p : Day08.Puzzle) :
    ((∃ fuel n, Day08.part1Fuel fuel p = .ok n) ↔
      (p.directions.isEmpty = true ∨
        ∃ k, 1 ≤ k ∧ Day08.walkN p k = some "ZZZ")) ∧
    ((∃ fuel, Day08.part1Fuel fuel p = .panicked) ↔
      (¬(p.directions.isEmpty = true ∨
          ∃ k, 1 ≤ k ∧ Day08.walkN p k = some "ZZZ") ∧
        ∃ j, Day08.walkN p j = none)) ∧
    ((∀ fuel, Day08.part1Fuel fuel p = .fuelOut) ↔
      (¬(p.directions.isEmpty = true ∨
          ∃ k, 1 ≤ k ∧ Day08.walkN p k = some "ZZZ") ∧
        ∀ j, Day08.walkN p j ≠ none)) ∧
    (∀ fuel, Day08.part2Fuel fuel Day08.loopPuzzle = none) := by
  have hOk := day08_part1_ok_iff p
  have hPan : (∃ fuel, Day08.part1Fuel fuel p = .panicked) ↔
      (¬(p.directions.isEmpty = true ∨
          ∃ k, 1 ≤ k ∧ Day08.walkN p k = some "ZZZ") ∧
        ∃ j, Day08.walkN p j = none) := by
    constructor
    · rintro ⟨fuel, h⟩
      by_cases hemp : p.directions.isEmpty = true
      · rw [Day08.part1Fuel, if_pos hemp] at h
        exact absurd h (fun h => Day08.Res.noConfusion h)
      · rw [Day08.part1Fuel, if_neg hemp] at h
        obtain ⟨hex, hno⟩ :=
          Day08.part1Aux_panicked_reaches p fuel 0 "AAA" rfl h
        refine ⟨?_, hex⟩
        rintro (hc | ⟨k, hk1, hkZ⟩)
        · exact hemp hc
        · exact hno k (by omega) hkZ
    · rintro ⟨hnA, j, hj⟩
      have hemp : ¬p.directions.isEmpty = true := fun hc => hnA (Or.inl hc)
      have hno : ∀ m, 1 ≤ m → Day08.walkN p m ≠ some "ZZZ" := by
        intro m hm hc
        exact hnA (Or.inr ⟨m, hm, hc⟩)
      have hj1 : 1 ≤ j := by
        rcases Nat.eq_zero_or_pos j with h0 | h1
        · have hw0 : Day08.walkN p 0 = some "AAA" := rfl
          rw [h0, hw0] at hj
          exact Option.noConfusion hj
        · exact h1
      obtain ⟨d, hd⟩ : ∃ d, j = 0 + d + 1 := ⟨j - 1, by omega⟩
      rw [hd] at hj
      obtain ⟨fuel, hf⟩ :=
        Day08.part1Aux_reaches_panicked p d 0 "AAA" rfl hj hno
      exact ⟨fuel, by rw [Day08.part1Fuel, if_neg hemp]; exact hf⟩
  refine ⟨hOk, hPan, ?_, Day08.part2Fuel_loopPuzzle⟩
  constructor
  · intro hdiv
    have hnA : ¬(p.directions.isEmpty = true ∨
        ∃ k, 1 ≤ k ∧ Day08.walkN p k = some "ZZZ") := by
      intro hA
      obtain ⟨fuel, n, hf⟩ := hOk.mpr hA
      have hq := hdiv fuel
      rw [hf] at hq
      exact Day08.Res.noConfusion hq
    refine ⟨hnA, ?_⟩
    intro j hj
    obtain ⟨fuel, hf⟩ := hPan.mpr ⟨hnA, j, hj⟩
    have hq := hdiv fuel
    rw [hf] at hq
    exact Day08.Res.noConfusion hq
  · rintro ⟨hnA, hall⟩
    intro fuel
    cases hres : Day08.part1Fuel fuel p with
    | ok n => exact absurd (hOk.mp ⟨fuel, n, hres⟩) hnA
    | panicked =>
      obtain ⟨_, j, hj⟩ := hPan.mp ⟨fuel, hres⟩
      exact absurd hj (hall j)
    | fuelOut => rfl

namespace Day14

/-- `mapOption` fails exactly when some element fails. -/
theorem mapOption_isNone (f : α → Option β) (l : List α) :
    (mapOption f l).isNone = l.any (fun a => (f a).isNone) := by
  induction l with
  | nil => rfl
  | cons a l ih =>
    rw [mapOption]
    cases hfa : f a with
    | none => simp [hfa]
    | some b =>
      cases hml : mapOption f l with
      | none => simp [hfa, hml, ← ih]
      | some bs => simp [hfa, hml, ← ih]

/-- `mapOption` preserves length. -/
theorem mapOption_length (f : α → Option β) (l : List α) :
    ∀ bs, mapOption f l = some bs → bs.length = l.length := by
  induction l with
  | nil =>
    intro bs h
    rw [mapOption] at h
    have : [] = bs := Option.some.inj h
    simp [← this]
  | cons a l ih =>
    intro bs h
    rw [mapOption] at h
    cases hfa : f a with
    | none => rw [hfa] at h; exact absurd h (fun h => Option.noConfusion h)
    | some b =>
      rw [hfa] at h
      cases hml : mapOption f l with
      | none =>
        rw [hml] at h
        exact absurd h (fun h => Option.noConfusion h)
      | some bs2 =>
        rw [hml] at h
        have hb : b :: bs2 = bs := Option.some.inj h
        subst hb
        simp [ih bs2 hml]

/-- `List.any` only depends on the predicate's values on the list. -/
theorem anyCongr {α : Type} {p q : α → Bool} :
    ∀ l : List α, (∀ a ∈ l, p a = q a) → l.any p = l.any q
  | [], _ => rfl
  | a :: l, h => by
    rw [List.any_cons, List.any_cons, h a (List.mem_cons_self _ _),
      anyCongr l (fun x hx => h x (List.mem_cons_of_mem _ hx))]

end Day14

/-- C5 counterexample: the day-14 parse function does not return an `Err`
    of the `Oops` error type on malformed input - on the input `"X"` (and
    on the empty input) it panics (`unreachable!()` / index out of
    bounds). -/
theorem c5_day14_parse_panics_on_bad_char :
    Day14.parse "X" = Day14.ParseRes.panicked ∧
    Day14.parse "" = Day14.ParseRes.panicked := by
  decide

/-- C5 (amended): not every parse failure is signalled through a
    `Result`-based error.  Day 14's parser panics precisely on the inputs
    with no lines or with a character other than `'O'`, `'#'`, `'.'` on
    some line, and it never returns an `Err` at all (its only non-`Ok`
    behaviour is the panic). -/
theorem c5_day14_parse_panic_characterization (s : String) :
    (Day14.parse s = Day14.ParseRes.panicked ↔
      (Day14.rustLines s = [] ∨
        (Day14.rustLines s).any
          (fun l => l.any (fun c => (Day14.parseCell c).isNone)) = true)) ∧
    (∀ e, Day14.parse s ≠ Day14.ParseRes.error e) := by
  have hout : (Day14.mapOption (Day14.mapOption Day14.parseCell)
      (Day14.rustLines s)).isNone =
      (Day14.rustLines s).any
        (fun l => l.any (fun c => (Day14.parseCell c).isNone)) := by
    rw [Day14.mapOption_isNone]
    exact Day14.anyCongr _
      (fun l _ => Day14.mapOption_isNone Day14.parseCell l)
  constructor
  · rw [Day14.parse]
    cases hm : Day14.mapOption (Day14.mapOption Day14.parseCell)
        (Day14.rustLines s) with
    | none =>
      rw [hm] at hout
      constructor
      · intro _
        exact Or.inr (by simpa using hout.symm)
      · intro _
        rfl
    | some cells =>
      rw [hm] at hout
      cases cells with
      | nil =>
        constructor
        · intro _
          have hlen := Day14.mapOption_length (Day14.mapOption Day14.parseCell)
            (Day14.rustLines s) [] hm
          exact Or.inl (List.eq_nil_of_length_eq_zero hlen.symm)
        · intro _
          rfl
      | cons c0 rest =>
        constructor
        · intro h
          exact absurd h (fun h => Day14.ParseRes.noConfusion h)
        · rintro (h | h)
          · have hlen := Day14.mapOption_length (Day14.mapOption Day14.parseCell)
              (Day14.rustLines s) (c0 :: rest) hm
            rw [h] at hlen
            exact absurd hlen (by simp)
          · rw [← hout] at h
            exact absurd h (by simp)
  · intro e
    rw [Day14.parse]
    cases hm : Day14.mapOption (Day14.mapOption Day14.parseCell)
        (Day14.rustLines s) with
    | none => exact fun h => Day14.ParseRes.noConfusion h
    | some cells =>
      cases cells with
      | nil => exact fun h => Day14.ParseRes.noConfusion h
      | cons c0 rest => exact fun h => Day14.ParseRes.noConfusion h


namespace Day14

theorem spin_single_round : spin 1 1 [[Cell.round]] = some [[Cell.round]] := rfl

theorem calculate_single_round : calculate 1 1 [[Cell.round]] = some 1 := rfl

/-- One iteration of the first `part2` loop on the 1x1 grid `"O"`: the
    grid and score stay fixed, the score and iteration index are
    recorded. -/
theorem loop1_step_single_round (cnt k : Nat) (s : List Nat) (l : List Nat) :
    loop1 1 1 (cnt + 1) ⟨[[Cell.round]], k, s, [(1, l)]⟩ =
      loop1 1 1 cnt ⟨[[Cell.round]], k + 1, s ++ [1], [(1, l ++ [k])]⟩ := rfl

/-- Running the first `part2` loop on the 1x1 grid `"O"` for `cnt`
    iterations from a state whose score map has the single key `1`. -/
theorem loop1_run_single_round :
    ∀ (cnt k : Nat) (s : List Nat) (l : List Nat),
      loop1 1 1 cnt ⟨[[Cell.round]], k, s, [(1, l)]⟩ =
        some ⟨[[Cell.round]], k + cnt, s ++ List.replicate cnt 1,
          [(1, l ++ List.range' k cnt)]⟩ := by
  intro cnt
  induction cnt with
  | zero =>
    intro k s l
    simp [loop1, List.range']
  | succ cnt ih =>
    intro k s l
    rw [loop1_step_single_round, ih (k + 1) (s ++ [1]) (l ++ [k])]
    have h1 : k + 1 + cnt = k + (cnt + 1) := by omega
    have h2 : (s ++ [1]) ++ List.replicate cnt 1 =
        s ++ List.replicate (cnt + 1) 1 := by
      rw [List.append_assoc]
      rfl
    have h3 : (l ++ [k]) ++ List.range' (k + 1) cnt =
        l ++ List.range' k (cnt + 1) := by
      rw [List.append_assoc]
      rfl
    rw [h1, h2, h3]

/-- The very first iteration of the first `part2` loop on `"O"`: the score
    map starts empty and receives its single key. -/
theorem loop1_first_step_single_round (cnt : Nat) :
    loop1 1 1 (cnt + 1) ⟨[[Cell.round]], 0, [], []⟩ =
      loop1 1 1 cnt ⟨[[Cell.round]], 1, [1], [(1, [0])]⟩ := rfl

/-- The full first loop (1000 iterations) of `part2` on the grid `"O"`. -/
theorem loop1_full_single_round :
    loop1 1 1 1000 ⟨[[Cell.round]], 0, [], []⟩ =
      some ⟨[[Cell.round]], 1000, List.replicate 1000 1,
        [(1, List.range' 0 1000)]⟩ := by
  rw [show (1000 : Nat) = 999 + 1 from rfl, loop1_first_step_single_round,
    loop1_run_single_round 999 1 [1] [0]]
  norm_num
  constructor
  · rfl
  · rfl

set_option maxRecDepth 20000 in
/-- The cycle-finder loop of `part2` on `"O"` panics in its first
    iteration: the score after spin 1001 is `1`, seen at every earlier
    iteration, so the first candidate is `previous_it = 0` with
    `cycle_len = 1000 - 0 = 1000`, and the window check at `i = 1`
    evaluates `scores_seen[iteration - cycle_len - i]` =
    `scores_seen[1000 - 1000 - 1]`, an underflowing `usize` subtraction. -/
theorem cfinder_panics_single_round :
    cfinder 1 1 999999000 ⟨[[Cell.round]], 1000, List.replicate 1000 1,
      [(1, List.range' 0 1000)]⟩ = none := rfl

/-- `part2` on the parsed 1x1 grid `"O"` panics (and prints nothing). -/
theorem part2_single_round :
    part2 1 1 [[Cell.round]] = (none, []) := by
  unfold part2
  rw [loop1_full_single_round]
  dsimp only
  rw [cfinder_panics_single_round]

/-- The 1x1 grid `"O"` is a fixed point of the spin cycle. -/
theorem iterateSpin_single_round :
    ∀ n, iterateSpin 1 1 n [[Cell.round]] = some [[Cell.round]] := by
  intro n
  induction n with
  | zero => rfl
  | succ n ih =>
    rw [iterateSpin, spin_single_round]
    exact ih

/-- The naive reference of claim C1 on the parsed grid `"O"`: a billion
    spin cycles leave the grid unchanged and the total load is `1`. -/
theorem naivePart2_single_round :
    naivePart2 ⟨[[Cell.round]], 1, 1⟩ = some 1 := by
  rw [naivePart2]
  dsimp only
  rw [iterateSpin_single_round 1000000000]
  rfl

end Day14

/-- C1 (code bug): `part2` of day 14 does not return the result of the
    naive computation that applies the four tilts 1,000,000,000 times and
    then calls `calculate`.  On the parsed 1x1 grid `"O"` the naive
    reference returns `1`, but `part2` panics: at iteration 1000 the score
    (constant `1`) was seen at every previous iteration, the first cycle
    candidate is `previous_it = 0` with `cycle_len = 1000`, and the window
    check evaluates `scores_seen[iteration - cycle_len - i]` =
    `scores_seen[1000 - 1000 - 1]`, an underflowing `usize` subtraction
    (out-of-bounds index after wrapping in release builds). -/
theorem c1_day14_part2_panics_on_single_round_cell :
    (Day14.part2 1 1 [[Day14.Cell.round]]).1 = none ∧
    Day14.naivePart2 ⟨[[Day14.Cell.round]], 1, 1⟩ = some 1 ∧
    Day14.parse "O" = Day14.ParseRes.ok ⟨[[Day14.Cell.round]], 1, 1⟩ := by
  refine ⟨?_, Day14.naivePart2_single_round, by decide⟩
  rw [Day14.part2_single_round]

/-- C6 (code bug): the day-14 binary does not always write exactly two
    lines.  On the parsed 1x1 input `"O"` it prints the part-1 answer
    (`"1"`) and then panics inside `part2`'s cycle check, so exactly one
    line is written.  (When the cycle detection does fire, `part2`
    additionally prints the detected cycle's scores and one score per
    remaining iteration - `println!` calls inside `part2` - and day 12's
    `part1`/`part2` print two debug lines per input record on every
    input.) -/
theorem c6_day14_writes_one_line_on_single_round_cell :
    Day14.mainOut "O" = (["1"], false) ∧
    (Day14.mainOut "O").1.length ≠ 2 := by
  have hparse : Day14.parse "O" =
      Day14.ParseRes.ok ⟨[[Day14.Cell.round]], 1, 1⟩ := by decide
  have hpart1 : Day14.part1 ⟨[[Day14.Cell.round]], 1, 1⟩ = some 1 := by decide
  have hmain : Day14.mainOut "O" = (["1"], false) := by
    rw [Day14.mainOut, hparse]
    dsimp only
    rw [hpart1]
    dsimp only
    rw [Day14.part2Puzzle]
    dsimp only
    rw [Day14.part2_single_round]
    rfl
  refine ⟨hmain, ?_⟩
  rw [hmain]
  decide
